import Mathlib

/-!
Verification development for the PersonalAssistant record manager.

The Python source (PersonalAssistant.py) is shallowly embedded: strings are
lists of characters, Python dicts keyed by integer ids are association lists,
the bounded undo deque is a list with most recent entry at the head, and
exceptions are `Except`/`Option` results.  Every definition follows the
corresponding source function; deviations forced by the embedding (ASCII-only
case folding, rational model of the one float comparison, fuel for the
difflib recursion) are noted at the definition they concern.
-/

set_option maxRecDepth 4000

/-- Python strings are modelled as lists of characters. -/
abbrev Str := List Char

/-- Character list of a Lean string literal, used to write concrete inputs. -/
def chars (s : String) : Str := s.data

/-- Python str.lower, restricted to ASCII (all data in the program is ASCII). -/
def lowerStr (s : Str) : Str := s.map Char.toLower

/-- Whitespace characters recognised by Python str.strip and the regex class \s
(ASCII subset). -/
def isPySpace (c : Char) : Bool :=
  c = ' ' || c = '\t' || c = '\n' || c = '\r' || c = '\x0b' || c = '\x0c'

/-- Python str.strip: drop leading and trailing whitespace. -/
def pyStrip (s : Str) : Str :=
  ((s.dropWhile isPySpace).reverse.dropWhile isPySpace).reverse

/-- Tests whether the first list is a leading segment of the second
(the building block of the Python substring operator `in`). -/
def startsWithStr : Str → Str → Bool
  | [], _ => true
  | _ :: _, [] => false
  | a :: q, b :: s => a == b && startsWithStr q s

/-- Python substring containment `q in s`. -/
def substrIn (q : Str) : Str → Bool
  | [] => q.isEmpty
  | c :: s => startsWithStr q (c :: s) || substrIn q s

/-- Decimal digit character for a value below ten. -/
def digitChar (n : Nat) : Char :=
  match n with
  | 0 => '0' | 1 => '1' | 2 => '2' | 3 => '3' | 4 => '4'
  | 5 => '5' | 6 => '6' | 7 => '7' | 8 => '8' | _ => '9'

/-- Numeric value of a decimal digit character. -/
def digitVal (c : Char) : Nat := c.toNat - 48

/-- Two digit zero padded rendering, as produced by strftime %d %m %H %M %S. -/
def pad2 (n : Nat) : Str := [digitChar (n / 10), digitChar (n % 10)]

/-- Four digit zero padded rendering, as produced by strftime %Y for the
four digit years the program stores. -/
def pad4 (n : Nat) : Str :=
  [digitChar (n / 1000), digitChar (n / 100 % 10), digitChar (n / 10 % 10), digitChar (n % 10)]

/-- All characters are decimal digits (regex class \d, ASCII model). -/
def allDigits (s : Str) : Bool := s.all Char.isDigit

/-- Value of a digit string read left to right. -/
def digitsVal (s : Str) : Nat := s.foldl (fun a c => 10 * a + digitVal c) 0

/-- Split a character list at every occurrence of a separator, keeping empty
components, like Python str.split with an explicit separator. -/
def splitOnChar (sep : Char) : Str → List Str
  | [] => [[]]
  | c :: rest =>
    if c = sep then [] :: splitOnChar sep rest
    else
      match splitOnChar sep rest with
      | [] => [[c]]
      | h :: t => (c :: h) :: t

/-- Gregorian leap year rule used by the datetime module. -/
def isLeapYear (y : Nat) : Bool := y % 4 == 0 && (y % 100 != 0 || y % 400 == 0)

/-- Length of a month as validated by datetime construction. -/
def daysInMonth (y m : Nat) : Nat :=
  if m = 2 then (if isLeapYear y then 29 else 28)
  else if m = 4 ∨ m = 6 ∨ m = 9 ∨ m = 11 then 30
  else 31

/-- strptime day field, regex 3[01] or [12]\d or 0[1-9] or [1-9] followed by a
literal separator: one digit valued 1 to 9, or two digits valued 1 to 31. -/
def parseDayField (s : Str) : Option Nat :=
  if allDigits s then
    if s.length = 1 ∧ 1 ≤ digitsVal s then some (digitsVal s)
    else if s.length = 2 ∧ 1 ≤ digitsVal s ∧ digitsVal s ≤ 31 then some (digitsVal s)
    else none
  else none

/-- strptime month field, regex 1[0-2] or 0[1-9] or [1-9]: one digit valued
1 to 9, or two digits valued 1 to 12. -/
def parseMonthField (s : Str) : Option Nat :=
  if allDigits s then
    if s.length = 1 ∧ 1 ≤ digitsVal s then some (digitsVal s)
    else if s.length = 2 ∧ 1 ≤ digitsVal s ∧ digitsVal s ≤ 12 then some (digitsVal s)
    else none
  else none

/-- strptime year field %Y, regex \d\d\d\d: exactly four digits. -/
def parseYearField (s : Str) : Option Nat :=
  if s.length = 4 ∧ allDigits s then some (digitsVal s) else none

/-- strptime hour field, regex 2[0-3] or [0-1]\d or \d. -/
def parseHourField (s : Str) : Option Nat :=
  if allDigits s then
    if s.length = 1 then some (digitsVal s)
    else if s.length = 2 ∧ digitsVal s ≤ 23 then some (digitsVal s)
    else none
  else none

/-- strptime minute or second field, regex [0-5]\d or \d. -/
def parseMinSecField (s : Str) : Option Nat :=
  if allDigits s then
    if s.length = 1 then some (digitsVal s)
    else if s.length = 2 ∧ digitsVal s ≤ 59 then some (digitsVal s)
    else none
  else none

/-- Calendar date as stored in Contact.birthday (Python datetime.date). -/
structure PyDate where
  year : Nat
  month : Nat
  day : Nat
deriving DecidableEq

/-- Timestamp as stored in Note.created_at (Python datetime.datetime). -/
structure PyDateTime where
  year : Nat
  month : Nat
  day : Nat
  hour : Nat
  minute : Nat
  second : Nat
  microsecond : Nat
deriving DecidableEq

/-- strftime rendering with pattern YYYY-MM-DD. -/
def formatYMD (y m d : Nat) : Str :=
  pad4 y ++ '-' :: (pad2 m ++ '-' :: pad2 d)

/-- strftime rendering with pattern DD.MM.YYYY, used by Contact display and
search. -/
def formatDMY (d m y : Nat) : Str :=
  pad2 d ++ '.' :: (pad2 m ++ '.' :: pad4 y)

/-- strftime rendering with the Note serialization pattern
YYYY-MM-DD HH:MM:SS; it carries no sub second information. -/
def formatPyDateTime (t : PyDateTime) : Str :=
  formatYMD t.year t.month t.day ++
    ' ' :: (pad2 t.hour ++ ':' :: (pad2 t.minute ++ ':' :: pad2 t.second))

/-- strptime with pattern YYYY-MM-DD HH:MM:SS including the calendar
validation done by datetime construction.  Runs of whitespace in the input
are modelled as the single space of the canonical rendering. -/
def parsePyDateTime (s : Str) : Option PyDateTime :=
  match splitOnChar ' ' s with
  | [dpart, tpart] =>
    match splitOnChar '-' dpart with
    | [ys, ms, ds] =>
      match splitOnChar ':' tpart with
      | [hs, mins, ss] => do
        let y ← parseYearField ys
        let mo ← parseMonthField ms
        let d ← parseDayField ds
        let h ← parseHourField hs
        let mi ← parseMinSecField mins
        let sec ← parseMinSecField ss
        if 1 ≤ y ∧ d ≤ daysInMonth y mo then
          some { year := y, month := mo, day := d, hour := h, minute := mi,
                 second := sec, microsecond := 0 }
        else none
      | _ => none
    | _ => none
  | _ => none

/-- strptime with pattern DD.MM.YYYY plus datetime calendar validation. -/
def parseDateFieldsDMY (s : Str) : Option PyDate :=
  match splitOnChar '.' s with
  | [ds, ms, ys] => do
    let d ← parseDayField ds
    let m ← parseMonthField ms
    let y ← parseYearField ys
    if 1 ≤ y ∧ d ≤ daysInMonth y m then some ⟨y, m, d⟩ else none
  | _ => none

/-- strptime with pattern YYYY-MM-DD plus datetime calendar validation. -/
def parseDateFieldsYMD (s : Str) : Option PyDate :=
  match splitOnChar '-' s with
  | [ys, ms, ds] => do
    let y ← parseYearField ys
    let m ← parseMonthField ms
    let d ← parseDayField ds
    if 1 ≤ y ∧ d ≤ daysInMonth y m then some ⟨y, m, d⟩ else none
  | _ => none

/-- parse_birthday: tries the format DD.MM.YYYY, then YYYY-MM-DD.  Returns
none where the Python function raises ValueError. -/
def parse_birthday (s : Str) : Option PyDate :=
  match parseDateFieldsDMY s with
  | some d => some d
  | none => parseDateFieldsYMD s

/-- Full match against the pattern described by the regex
plus three eight zero followed by nine digits. -/
def matchPlus380 : Str → Bool
  | '+' :: '3' :: '8' :: '0' :: rest => rest.length == 9 && allDigits rest
  | _ => false

/-- Full match against the pattern zero followed by nine digits. -/
def matchLocal : Str → Bool
  | '0' :: rest => rest.length == 9 && allDigits rest
  | _ => false

/-- validate_phone: returns the canonical international form of a valid phone
and the empty string for an invalid one. -/
def validate_phone (p : Str) : Str :=
  if matchPlus380 p then p
  else if matchLocal p then '+' :: '3' :: '8' :: p
  else []

/-- Character admissible in the local or domain part of the email regex. -/
def isEmailChar (c : Char) : Bool := !(c == '@') && !(isPySpace c)

/-- Splits at the first occurrence of a character, none when absent. -/
def splitFirstAt (c : Char) : Str → Option (Str × Str)
  | [] => none
  | d :: s =>
    if d = c then some ([], s)
    else (splitFirstAt c s).map (fun p => (d :: p.1, p.2))

/-- Tests for a dot that is neither the first nor the last character. -/
def hasInternalDot (s : Str) : Bool := ((s.drop 1).dropLast).any (· == '.')

/-- validate_email: full match of the regex one or more characters outside
at sign and whitespace, an at sign, the same class, a dot, the same class. -/
def validate_email (s : Str) : Bool :=
  match splitFirstAt '@' s with
  | none => false
  | some (a, rest) =>
    !a.isEmpty && a.all isEmailChar && rest.all isEmailChar && hasInternalDot rest

/-- Lookup in the association rows of find_longest_match, Python dict get with
default zero. -/
def rowGet (row : List (Nat × Nat)) (k : Nat) : Nat :=
  match row.find? (fun p => p.1 == k) with
  | some p => p.2
  | none => 0

/-- One row of difflib SequenceMatcher.find_longest_match: scans the positions
of the second sequence in increasing order, extending common chains; ties are
broken towards the first candidate, as in the source.  Junk handling never
fires on the short strings of this program, so the trailing extension loops of
the source are no-ops and are omitted. -/
def flmRow (b : Str) (ai : Char) (i blo bhi : Nat) (j2len : List (Nat × Nat))
    (best : Nat × Nat × Nat) : List (Nat × Nat) × (Nat × Nat × Nat) :=
  (List.range bhi).foldl
    (fun acc j =>
      if blo ≤ j ∧ b.get? j = some ai then
        let k := (if j = 0 then 0 else rowGet j2len (j - 1)) + 1
        let best' := if acc.2.2.2 < k then (i + 1 - k, j + 1 - k, k) else acc.2
        ((j, k) :: acc.1, best')
      else acc)
    ([], best)

/-- difflib SequenceMatcher.find_longest_match on the window from alo to ahi
and blo to bhi, returning start positions and size of the longest block. -/
def find_longest_match (a b : Str) (alo ahi blo bhi : Nat) : Nat × Nat × Nat :=
  ((List.range ahi).foldl
    (fun (acc : List (Nat × Nat) × (Nat × Nat × Nat)) i =>
      if alo ≤ i then
        match a.get? i with
        | some ai => flmRow b ai i blo bhi acc.1 acc.2
        | none => acc
      else acc)
    ([], (alo, blo, 0))).2

/-- Total size of the difflib matching blocks on a window, by the recursive
splitting of get_matching_blocks.  Each recursive call strictly shrinks the
first window, so a fuel of the window width plus one never runs out. -/
def matchTotalAux (a b : Str) : Nat → Nat → Nat → Nat → Nat → Nat
  | 0, _, _, _, _ => 0
  | fuel + 1, alo, ahi, blo, bhi =>
    let r := find_longest_match a b alo ahi blo bhi
    let i := r.1
    let j := r.2.1
    let k := r.2.2
    if k = 0 then 0
    else
      k + (if alo < i ∧ blo < j then matchTotalAux a b fuel alo i blo j else 0)
        + (if i + k < ahi ∧ j + k < bhi then matchTotalAux a b fuel (i + k) ahi (j + k) bhi else 0)

/-- Total size of all matching blocks between two strings. -/
def matchTotal (a b : Str) : Nat :=
  matchTotalAux a b (a.length + 1) 0 a.length 0 b.length

/-- get_close_matches q [name] with n one and cutoff 0.7 is nonempty exactly
when the SequenceMatcher ratio 2M over T reaches the cutoff; the float
comparison is modelled exactly by the rational inequality 20M at least 7T,
which agrees with the double computation for the short strings involved. -/
def closeMatch (q name : Str) : Bool :=
  decide (7 * (name.length + q.length) ≤ 20 * matchTotal name q)

/-- Contact record (dataclass fields after construction; birthday already
parsed to a date or absent). -/
structure Contact where
  id : Nat
  name : Str
  phones : List Str
  emails : List Str
  birthday : Option PyDate
deriving DecidableEq

/-- Note record (dataclass fields after construction). -/
structure Note where
  id : Nat
  text : Str
  tags : List Str
  contact_ids : List Nat
  created_at : PyDateTime
deriving DecidableEq

/-- Errors raised by the core: ValueError from validation and KeyError from
lookup by id. -/
inductive PAErr where
  | validation
  | notFound (id : Nat)
deriving DecidableEq

/-- Constructor arguments of Contact as supplied by create_and_add and
from_dict: the birthday is still a raw string when present. -/
structure ContactFields where
  name : Str
  phones : List Str
  emails : List Str
  birthday : Option Str
deriving DecidableEq

/-- Contact dataclass construction including post init: a non empty birthday
string is parsed (ValueError on failure), an empty one is falsy in the Python
truth test and is left alone, behaving as an absent date afterwards; name,
phones and emails are stored without any validation. -/
def mkContact (id : Nat) (f : ContactFields) : Except PAErr Contact :=
  match f.birthday with
  | none => .ok ⟨id, f.name, f.phones, f.emails, none⟩
  | some s =>
    if s.isEmpty then .ok ⟨id, f.name, f.phones, f.emails, none⟩
    else
      match parse_birthday s with
      | some d => .ok ⟨id, f.name, f.phones, f.emails, some d⟩
      | none => .error .validation

/-- Constructor arguments of Note as supplied by create_and_add and
from_dict; created_at defaults to the current time, passed in explicitly. -/
structure NoteFields where
  text : Str
  tags : List Str
  contact_ids : List Nat
deriving DecidableEq

/-- Note dataclass construction including post init: text that strips to
empty raises ValueError. -/
def mkNote (now : PyDateTime) (id : Nat) (f : NoteFields) : Except PAErr Note :=
  if (pyStrip f.text).isEmpty then .error .validation
  else .ok ⟨id, f.text, f.tags, f.contact_ids, now⟩

/-- Serialized form of a Contact (Contact.to_dict output shape). -/
structure ContactDict where
  id : Nat
  name : Str
  phones : List Str
  emails : List Str
  birthday : Option Str
deriving DecidableEq

/-- Contact.to_dict. -/
def contactToDict (c : Contact) : ContactDict :=
  ⟨c.id, c.name, c.phones, c.emails, c.birthday.map (fun b => formatYMD b.year b.month b.day)⟩

/-- Contact.from_dict: passes the raw fields back through the constructor. -/
def contactFromDict (d : ContactDict) : Except PAErr Contact :=
  mkContact d.id ⟨d.name, d.phones, d.emails, d.birthday⟩

/-- Serialized form of a Note (Note.to_dict output shape). -/
structure NoteDict where
  id : Nat
  text : Str
  tags : List Str
  contact_ids : List Nat
  created_at : Str
deriving DecidableEq

/-- Note.to_dict: the timestamp is rendered to whole seconds. -/
def noteToDict (n : Note) : NoteDict :=
  ⟨n.id, n.text, n.tags, n.contact_ids, formatPyDateTime n.created_at⟩

/-- Note.from_dict: an unparsable or missing timestamp falls back to the
current time; the constructor then validates the text. -/
def noteFromDict (now : PyDateTime) (d : NoteDict) : Except PAErr Note :=
  let created := match parsePyDateTime d.created_at with
    | some t => t
    | none => now
  if (pyStrip d.text).isEmpty then .error .validation
  else .ok ⟨d.id, d.text, d.tags, d.contact_ids, created⟩

/-- Contact.matches: lowercased query tested as a substring of the lowercased
name, then a fuzzy comparison of the query against the lowercased name, then
substring of each phone as stored, of each lowercased email, and of the
birthday rendered DD.MM.YYYY. -/
def contactMatches (c : Contact) (query : Str) : Bool :=
  let q := lowerStr query
  if substrIn q (lowerStr c.name) then true
  else if closeMatch q (lowerStr c.name) then true
  else if c.phones.any (fun p => substrIn q p) then true
  else if c.emails.any (fun e => substrIn q (lowerStr e)) then true
  else
    match c.birthday with
    | some b => substrIn q (formatDMY b.day b.month b.year)
    | none => false

/-- Note.matches: lowercased query as substring of the lowercased text or of
some lowercased tag. -/
def noteMatches (n : Note) (query : Str) : Bool :=
  let q := lowerStr query
  substrIn q (lowerStr n.text) || n.tags.any (fun t => substrIn q (lowerStr t))

/-- Field patch for Contact.update; absent entries are not touched. -/
structure ContactPatch where
  name : Option Str
  phones : Option (List Str)
  emails : Option (List Str)
  birthday : Option Str
deriving DecidableEq

/-- Contact.update: name, phones and emails are assigned without validation;
a present birthday string is parsed and raises on failure, after the other
fields were already assigned, exactly as the sequential Python code does. -/
def contactUpdate (c : Contact) (p : ContactPatch) : Contact × Option PAErr :=
  let c1 := match p.name with | some n => { c with name := n } | none => c
  let c2 := match p.phones with | some ph => { c1 with phones := ph } | none => c1
  let c3 := match p.emails with | some em => { c2 with emails := em } | none => c2
  match p.birthday with
  | none => (c3, none)
  | some s =>
    match parse_birthday s with
    | some d => ({ c3 with birthday := some d }, none)
    | none => (c3, some .validation)

/-- Field patch for Note.update. -/
structure NotePatch where
  text : Option Str
  tags : Option (List Str)
  contact_ids : Option (List Nat)
deriving DecidableEq

/-- Note.update: every present field is assigned without any validation, so
this never raises. -/
def noteUpdate (n : Note) (p : NotePatch) : Note × Option PAErr :=
  let n1 := match p.text with | some t => { n with text := t } | none => n
  let n2 := match p.tags with | some t => { n1 with tags := t } | none => n1
  let n3 := match p.contact_ids with | some t => { n2 with contact_ids := t } | none => n2
  (n3, none)

/-- Undo log entry, the tuple pushed by add, delete and edit. -/
inductive UndoAct (E : Type) where
  | addA (id : Nat)
  | delA (id : Nat) (saved : E)
  | editA (id : Nat) (saved : E)
deriving DecidableEq

/-- MAX_UNDO_STEPS, the maxlen of the undo deque. -/
def MAX_UNDO_STEPS : Nat := 10

variable {E : Type}

/-- Appending to the bounded deque, most recent entry at the head; once full
the oldest entry, at the tail, is dropped. -/
def pushUndo (a : UndoAct E) (s : List (UndoAct E)) : List (UndoAct E) :=
  (a :: s).take MAX_UNDO_STEPS

/-- Lookup in the id keyed mapping (Python dict read). -/
def dGet? : List (Nat × E) → Nat → Option E
  | [], _ => none
  | (k, v) :: rest, i => if k = i then some v else dGet? rest i

/-- Write to the id keyed mapping: replaces in place when the key exists,
appends otherwise, like insertion ordered Python dict assignment. -/
def dInsert : List (Nat × E) → Nat → E → List (Nat × E)
  | [], i, v => [(i, v)]
  | (k, w) :: rest, i, v =>
    if k = i then (i, v) :: rest else (k, w) :: dInsert rest i v

/-- Deletion from the id keyed mapping. -/
def dErase : List (Nat × E) → Nat → List (Nat × E)
  | [], _ => []
  | (k, w) :: rest, i => if k = i then rest else (k, w) :: dErase rest i

/-- Access to the id field shared by the record kinds. -/
class EntryId (E : Type) where
  getId : E → Nat
  setId : E → Nat → E
  getId_setId : ∀ e i, getId (setId e i) = i

instance : EntryId Contact :=
  ⟨Contact.id, fun c i => { c with id := i }, fun _ _ => rfl⟩

instance : EntryId Note :=
  ⟨Note.id, fun n i => { n with id := i }, fun _ _ => rfl⟩

/-- State of a BaseBook: the id keyed mapping, the bounded undo log and the
highest id seen. -/
structure Book (E : Type) where
  data : List (Nat × E)
  undo_stack : List (UndoAct E)
  max_id : Nat
deriving DecidableEq

/-- A freshly constructed book. -/
def emptyBook : Book E := { data := [], undo_stack := [], max_id := 0 }

/-- BaseBook.add: a zero id receives max plus one, the counter is raised to
the id, an add entry is logged and the record is stored, overwriting any
record already present under that id.  Returns the id actually used. -/
def bookAdd [EntryId E] (b : Book E) (e : E) : Nat × Book E :=
  let e' := if EntryId.getId e = 0 then EntryId.setId e (b.max_id + 1) else e
  let i := EntryId.getId e'
  (i, { data := dInsert b.data i e',
        undo_stack := pushUndo (.addA i) b.undo_stack,
        max_id := max b.max_id i })

/-- BaseBook.create_and_add for a constructor mk taking the placeholder id
zero: a construction error propagates before any mutation, so the book comes
back unchanged beside it. -/
def create_and_add {P : Type} [EntryId E] (mk : Nat → P → Except PAErr E)
    (b : Book E) (p : P) : Except PAErr Nat × Book E :=
  match mk 0 p with
  | .error err => (.error err, b)
  | .ok entry =>
    let r := bookAdd b entry
    (.ok r.1, r.2)

/-- BaseBook.find_by_id as a total function; the Python method raises
KeyError exactly when this returns none. -/
def find_by_id (b : Book E) (i : Nat) : Option E := dGet? b.data i

/-- BaseBook.find: every stored record whose matches predicate accepts the
query, in insertion order. -/
def bookFind (m : E → Str → Bool) (b : Book E) (q : Str) : List E :=
  (b.data.map Prod.snd).filter (fun e => m e q)

/-- BaseBook.edit: raises when the id is absent, leaving everything
untouched; otherwise clones the record through its serialized form, pushes
the edit entry, and only then applies update, whose outcome and error
are kept, as in the mutable source where the push precedes the update. -/
def bookEdit {P : Type} (clone : E → Except PAErr E)
    (upd : E → P → E × Option PAErr) (b : Book E) (i : Nat) (p : P) :
    Book E × Option PAErr :=
  match dGet? b.data i with
  | none => (b, some (.notFound i))
  | some old =>
    match clone old with
    | .error err => (b, some err)
    | .ok copy =>
      let stack := pushUndo (.editA i copy) b.undo_stack
      let r := upd old p
      ({ b with data := dInsert b.data i r.1, undo_stack := stack }, r.2)

/-- BaseBook.delete: logs the removed record and erases it, returning true;
returns false without logging when the id is absent. -/
def bookDelete (b : Book E) (i : Nat) : Bool × Book E :=
  match dGet? b.data i with
  | some old =>
    (true, { b with data := dErase b.data i,
                    undo_stack := pushUndo (.delA i old) b.undo_stack })
  | none => (false, b)

/-- Result messages of BaseBook.undo. -/
inductive UndoMsg where
  | nothingToUndo
  | undidAdd (id : Nat)
  | restored (id : Nat)
  | undidEdit (id : Nat)
deriving DecidableEq

/-- BaseBook.undo: pops the most recent entry; an add entry removes the id if
still present, delete and edit entries write the saved record back
unconditionally; an empty log yields the nothing to undo message. -/
def bookUndo (b : Book E) : UndoMsg × Book E :=
  match b.undo_stack with
  | [] => (.nothingToUndo, b)
  | act :: rest =>
    match act with
    | .addA i => (.undidAdd i, { b with undo_stack := rest, data := dErase b.data i })
    | .delA i old => (.restored i, { b with undo_stack := rest, data := dInsert b.data i old })
    | .editA i old => (.undidEdit i, { b with undo_stack := rest, data := dInsert b.data i old })

/-- Entry loop of BaseBook.load over the parsed file content: each entry is
deserialized (an error propagates) and stored directly in the mapping, the
counter keeping the maximum key seen; the undo log is not touched. -/
def loadEntries {D : Type} (fd : D → Except PAErr E) :
    List (Nat × D) → Book E → Except PAErr (Book E)
  | [], bk => .ok bk
  | (k, v) :: rest, bk =>
    match fd v with
    | .error err => .error err
    | .ok entry =>
      loadEntries fd rest
        { bk with data := dInsert bk.data k entry, max_id := max bk.max_id k }

/-- BaseBook.load: the outcome of reading and JSON parsing the file is the
input, none standing for a missing file or malformed content, in which case a
fresh empty book is returned without raising. -/
def bookLoad {D : Type} (fd : D → Except PAErr E)
    (parsed : Option (List (Nat × D))) : Except PAErr (Book E) :=
  match parsed with
  | none => .ok emptyBook
  | some entries => loadEntries fd entries emptyBook

/-- One user level operation on a book, for statements over arbitrary
operation sequences; P is the constructor field set of create, Q the patch
type of edit. -/
inductive BookOp (E P Q : Type) where
  | addO (e : E)
  | createO (p : P)
  | deleteO (i : Nat)
  | editO (i : Nat) (q : Q)
  | undoO

/-- Effect of one operation on the book state. -/
def bookStep {P Q : Type} [EntryId E] (mk : Nat → P → Except PAErr E)
    (clone : E → Except PAErr E) (upd : E → Q → E × Option PAErr)
    (b : Book E) : BookOp E P Q → Book E
  | .addO e => (bookAdd b e).2
  | .createO p => (create_and_add mk b p).2
  | .deleteO i => (bookDelete b i).2
  | .editO i q => (bookEdit clone upd b i q).1
  | .undoO => (bookUndo b).2

/-- Replay of an operation sequence. -/
def bookRun {P Q : Type} [EntryId E] (mk : Nat → P → Except PAErr E)
    (clone : E → Except PAErr E) (upd : E → Q → E × Option PAErr)
    (b : Book E) : List (BookOp E P Q) → Book E
  | [] => b
  | op :: ops => bookRun mk clone upd (bookStep mk clone upd b op) ops

/-- Replay that also collects the ids handed out by add and by a successful
create along the run, in order. -/
def bookRunIds {P Q : Type} [EntryId E] (mk : Nat → P → Except PAErr E)
    (clone : E → Except PAErr E) (upd : E → Q → E × Option PAErr)
    (b : Book E) : List (BookOp E P Q) → Book E × List Nat
  | [] => (b, [])
  | op :: ops =>
    let here : List Nat :=
      match op with
      | .addO e => [(bookAdd b e).1]
      | .createO p =>
        match (create_and_add mk b p).1 with
        | .ok i => [i]
        | .error _ => []
      | _ => []
    let r := bookRunIds mk clone upd (bookStep mk clone upd b op) ops
    (r.1, here ++ r.2)

/-- Notebook.find_by_contact_id: notes whose contact_ids mention the id. -/
def find_by_contact_id (nb : Book Note) (cid : Nat) : List Note :=
  (nb.data.map Prod.snd).filter (fun n => n.contact_ids.contains cid)

/-- The two deletion policies offered when a contact with linked notes is
deleted. -/
inductive LinkPolicy where
  | cascade
  | detach

/-- Loop body of the detach branch: when the note still lists the contact,
the first occurrence of the id is removed from contact_ids (Python
list.remove) and the note object in the mapping is updated in place. -/
def detachNote (cid : Nat) (bk : Book Note) (note : Note) : Book Note :=
  if note.contact_ids.contains cid then
    { bk with data := dInsert bk.data note.id { note with contact_ids := note.contact_ids.erase cid } }
  else bk

/-- Policy portion of the delete_contact command: the linked notes are listed
first; cascade deletes each of them from the notebook, detach applies
detachNote to each, leaving the notes stored; finally the contact itself is
deleted. -/
def delete_contact_with_policy (ab : Book Contact) (nb : Book Note)
    (cid : Nat) (pol : LinkPolicy) : Book Contact × Book Note :=
  let linked := find_by_contact_id nb cid
  let nb' :=
    match pol with
    | .cascade => linked.foldl (fun bk note => (bookDelete bk note.id).2) nb
    | .detach => linked.foldl (detachNote cid) nb
  ((bookDelete ab cid).2, nb')


/-! Digit and rendering lemmas. -/

theorem isDigit_digitChar {n : Nat} (h : n < 10) : (digitChar n).isDigit = true := by
  interval_cases n <;> rfl

theorem digitVal_digitChar {n : Nat} (h : n < 10) : digitVal (digitChar n) = n := by
  interval_cases n <;> rfl

theorem digit_ne_sep {c : Char} (h : c.isDigit = true) :
    c ≠ ' ' ∧ c ≠ '-' ∧ c ≠ ':' ∧ c ≠ '.' := by
  refine ⟨?_, ?_, ?_, ?_⟩ <;> rintro rfl <;> simp_all [Char.isDigit]

theorem mem_pad2 {c : Char} {n : Nat} (h : c ∈ pad2 n) (hn : n < 100) :
    c.isDigit = true := by
  have h1 : n / 10 < 10 := by omega
  have h2 : n % 10 < 10 := by omega
  simp only [pad2, List.mem_cons, List.not_mem_nil, or_false] at h
  rcases h with rfl | rfl
  · exact isDigit_digitChar h1
  · exact isDigit_digitChar h2

theorem mem_pad4 {c : Char} {n : Nat} (h : c ∈ pad4 n) (hn : n < 10000) :
    c.isDigit = true := by
  have h1 : n / 1000 < 10 := by omega
  have h2 : n / 100 % 10 < 10 := by omega
  have h3 : n / 10 % 10 < 10 := by omega
  have h4 : n % 10 < 10 := by omega
  simp only [pad4, List.mem_cons, List.not_mem_nil, or_false] at h
  rcases h with rfl | rfl | rfl | rfl
  · exact isDigit_digitChar h1
  · exact isDigit_digitChar h2
  · exact isDigit_digitChar h3
  · exact isDigit_digitChar h4

theorem splitOnChar_ne_nil (sep : Char) (s : Str) : splitOnChar sep s ≠ [] := by
  induction s with
  | nil => simp [splitOnChar]
  | cons c rest ih =>
    by_cases h : c = sep
    · simp [splitOnChar, h]
    · simp only [splitOnChar, if_neg h]
      cases hs : splitOnChar sep rest with
      | nil => simp
      | cons a t => simp

theorem splitOnChar_append (sep : Char) (a b : Str) (h : ∀ c ∈ a, c ≠ sep) :
    splitOnChar sep (a ++ sep :: b) = a :: splitOnChar sep b := by
  induction a with
  | nil => simp [splitOnChar]
  | cons c a ih =>
    have hc : c ≠ sep := h c (by simp)
    have ih' := ih (fun x hx => h x (by simp [hx]))
    simp only [List.cons_append, splitOnChar, if_neg hc, List.append_eq, ih']

theorem splitOnChar_nosep (sep : Char) (a : Str) (h : ∀ c ∈ a, c ≠ sep) :
    splitOnChar sep a = [a] := by
  induction a with
  | nil => rfl
  | cons c a ih =>
    have hc : c ≠ sep := h c (by simp)
    have ih' := ih (fun x hx => h x (by simp [hx]))
    simp only [splitOnChar, if_neg hc, ih']

theorem parseYearField_pad4 {y : Nat} (h1 : 1000 ≤ y) (h2 : y ≤ 9999) :
    parseYearField (pad4 y) = some y := by
  have d0 : y / 1000 < 10 := by omega
  have d1 : y / 100 % 10 < 10 := by omega
  have d2 : y / 10 % 10 < 10 := by omega
  have d3 : y % 10 < 10 := by omega
  simp only [parseYearField, pad4, allDigits, List.all_cons, List.all_nil,
    isDigit_digitChar d0, isDigit_digitChar d1, isDigit_digitChar d2, isDigit_digitChar d3,
    Bool.and_true, Bool.and_self, List.length_cons, List.length_nil, digitsVal, List.foldl,
    digitVal_digitChar d0, digitVal_digitChar d1, digitVal_digitChar d2, digitVal_digitChar d3]
  norm_num
  omega

theorem digitsVal_pad2 {n : Nat} (hn : n < 100) : digitsVal (pad2 n) = n := by
  have d0 : n / 10 < 10 := by omega
  have d1 : n % 10 < 10 := by omega
  simp only [digitsVal, pad2, List.foldl, digitVal_digitChar d0, digitVal_digitChar d1]
  omega

theorem allDigits_pad2 {n : Nat} (hn : n < 100) : allDigits (pad2 n) = true := by
  have d0 : n / 10 < 10 := by omega
  have d1 : n % 10 < 10 := by omega
  simp [allDigits, pad2, isDigit_digitChar d0, isDigit_digitChar d1]

theorem parseMonthField_pad2 {m : Nat} (h1 : 1 ≤ m) (h2 : m ≤ 12) :
    parseMonthField (pad2 m) = some m := by
  have hm : m < 100 := by omega
  have hlen : (pad2 m).length = 2 := rfl
  simp [parseMonthField, allDigits_pad2 hm, digitsVal_pad2 hm, hlen, h1, h2]

theorem parseDayField_pad2 {d : Nat} (h1 : 1 ≤ d) (h2 : d ≤ 31) :
    parseDayField (pad2 d) = some d := by
  have hd : d < 100 := by omega
  have hlen : (pad2 d).length = 2 := rfl
  simp [parseDayField, allDigits_pad2 hd, digitsVal_pad2 hd, hlen, h1, h2]

theorem parseHourField_pad2 {h : Nat} (h2 : h ≤ 23) :
    parseHourField (pad2 h) = some h := by
  have hh : h < 100 := by omega
  have hlen : (pad2 h).length = 2 := rfl
  simp [parseHourField, allDigits_pad2 hh, digitsVal_pad2 hh, hlen, h2]

theorem parseMinSecField_pad2 {x : Nat} (h2 : x ≤ 59) :
    parseMinSecField (pad2 x) = some x := by
  have hx : x < 100 := by omega
  have hlen : (pad2 x).length = 2 := rfl
  simp [parseMinSecField, allDigits_pad2 hx, digitsVal_pad2 hx, hlen, h2]

theorem formatYMD_no_space {y m d : Nat} (hy : y < 10000) (hm : m < 100) (hd : d < 100) :
    ∀ c ∈ formatYMD y m d, c ≠ ' ' := by
  intro c hc
  simp only [formatYMD, List.mem_append, List.mem_cons] at hc
  rcases hc with h | rfl | h | rfl | h
  · exact (digit_ne_sep (mem_pad4 h hy)).1
  · decide
  · exact (digit_ne_sep (mem_pad2 h hm)).1
  · decide
  · exact (digit_ne_sep (mem_pad2 h hd)).1

theorem formatTime_no_space {h mi s : Nat} (hh : h < 100) (hmi : mi < 100) (hs : s < 100) :
    ∀ c ∈ pad2 h ++ ':' :: (pad2 mi ++ ':' :: pad2 s), c ≠ ' ' := by
  intro c hc
  simp only [List.mem_append, List.mem_cons] at hc
  rcases hc with h1 | rfl | h1 | rfl | h1
  · exact (digit_ne_sep (mem_pad2 h1 hh)).1
  · decide
  · exact (digit_ne_sep (mem_pad2 h1 hmi)).1
  · decide
  · exact (digit_ne_sep (mem_pad2 h1 hs)).1

/-- Validity of a timestamp as enforced by datetime construction, with the
four digit years the serialization format preserves exactly. -/
abbrev validDT (t : PyDateTime) : Prop :=
  1000 ≤ t.year ∧ t.year ≤ 9999 ∧ 1 ≤ t.month ∧ t.month ≤ 12 ∧
  1 ≤ t.day ∧ t.day ≤ daysInMonth t.year t.month ∧
  t.hour ≤ 23 ∧ t.minute ≤ 59 ∧ t.second ≤ 59

theorem daysInMonth_le (y m : Nat) : daysInMonth y m ≤ 31 := by
  simp only [daysInMonth]
  split
  · split <;> omega
  · split <;> omega

theorem parse_format {t : PyDateTime} (h : validDT t) :
    parsePyDateTime (formatPyDateTime t) = some { t with microsecond := 0 } := by
  obtain ⟨hy1, hy2, hm1, hm2, hd1, hd2, hh, hmi, hs⟩ := h
  have hy : t.year < 10000 := by omega
  have hm : t.month < 100 := by omega
  have hd31 : t.day ≤ 31 := le_trans hd2 (daysInMonth_le t.year t.month)
  have hd : t.day < 100 := by omega
  have hho : t.hour < 100 := by omega
  have hmin : t.minute < 100 := by omega
  have hsec : t.second < 100 := by omega
  have s1 : splitOnChar ' ' (formatPyDateTime t) =
      [formatYMD t.year t.month t.day,
        pad2 t.hour ++ ':' :: (pad2 t.minute ++ ':' :: pad2 t.second)] := by
    rw [formatPyDateTime, splitOnChar_append _ _ _ (formatYMD_no_space hy hm hd),
      splitOnChar_nosep _ _ (formatTime_no_space hho hmin hsec)]
  have s2 : splitOnChar '-' (formatYMD t.year t.month t.day) =
      [pad4 t.year, pad2 t.month, pad2 t.day] := by
    rw [formatYMD, splitOnChar_append _ _ _ (fun c hc => (digit_ne_sep (mem_pad4 hc hy)).2.1),
      splitOnChar_append _ _ _ (fun c hc => (digit_ne_sep (mem_pad2 hc hm)).2.1),
      splitOnChar_nosep _ _ (fun c hc => (digit_ne_sep (mem_pad2 hc hd)).2.1)]
  have s3 : splitOnChar ':' (pad2 t.hour ++ ':' :: (pad2 t.minute ++ ':' :: pad2 t.second)) =
      [pad2 t.hour, pad2 t.minute, pad2 t.second] := by
    rw [splitOnChar_append _ _ _ (fun c hc => (digit_ne_sep (mem_pad2 hc hho)).2.2.1),
      splitOnChar_append _ _ _ (fun c hc => (digit_ne_sep (mem_pad2 hc hmin)).2.2.1),
      splitOnChar_nosep _ _ (fun c hc => (digit_ne_sep (mem_pad2 hc hsec)).2.2.1)]
  simp only [parsePyDateTime, s1, s2, s3, parseYearField_pad4 hy1 hy2,
    parseMonthField_pad2 hm1 hm2, parseDayField_pad2 hd1 hd31, parseHourField_pad2 hh,
    parseMinSecField_pad2 hmi, parseMinSecField_pad2 hs, Option.bind_eq_bind,
    Option.some_bind]
  rw [if_pos ⟨by omega, hd2⟩]

/-! Substring containment agrees with list infix. -/

theorem startsWithStr_iff (q s : Str) : startsWithStr q s = true ↔ q <+: s := by
  induction q generalizing s with
  | nil => simp [startsWithStr]
  | cons a q ih =>
    cases s with
    | nil => simp [startsWithStr]
    | cons b s =>
      simp [startsWithStr, List.cons_prefix_cons, ih, and_comm]

theorem substrIn_iff (q s : Str) : substrIn q s = true ↔ q <:+: s := by
  induction s with
  | nil => simp [substrIn, List.isEmpty_iff]
  | cons c s ih =>
    simp [substrIn, startsWithStr_iff, ih, List.infix_cons_iff]

/-! Association list lemmas for the id keyed mapping. -/

theorem dGet?_dInsert_self (d : List (Nat × E)) (k : Nat) (v : E) :
    dGet? (dInsert d k v) k = some v := by
  induction d with
  | nil => simp [dInsert, dGet?]
  | cons kv rest ih =>
    by_cases h : kv.1 = k
    · simp [dInsert, dGet?, h]
    · simp [dInsert, dGet?, h, ih]

theorem dGet?_dInsert_ne (d : List (Nat × E)) (k i : Nat) (v : E) (h : k ≠ i) :
    dGet? (dInsert d k v) i = dGet? d i := by
  induction d with
  | nil => simp [dInsert, dGet?, h]
  | cons kv rest ih =>
    by_cases hk : kv.1 = k
    · simp [dInsert, dGet?, hk, h, ih]
    · by_cases hi : kv.1 = i
      · have hik : i ≠ k := fun hh => h hh.symm
        simp [dInsert, dGet?, hk, hi, hik]
      · simp [dInsert, dGet?, hk, hi, ih]

theorem dErase_dInsert (d : List (Nat × E)) (k : Nat) (v : E) :
    dErase (dInsert d k v) k = dErase d k := by
  induction d with
  | nil => simp [dInsert, dErase]
  | cons kv rest ih =>
    by_cases h : kv.1 = k
    · simp [dInsert, dErase, h]
    · simp [dInsert, dErase, h, ih]

theorem dGet?_dErase_ne (d : List (Nat × E)) (k i : Nat) (h : k ≠ i) :
    dGet? (dErase d k) i = dGet? d i := by
  induction d with
  | nil => simp [dErase]
  | cons kv rest ih =>
    by_cases hk : kv.1 = k
    · simp [dErase, dGet?, hk, fun hh : k = i => h hh]
    · by_cases hi : kv.1 = i
      · have hik : i ≠ k := fun hh => h hh.symm
        simp [dErase, dGet?, hk, hi, hik]
      · simp [dErase, dGet?, hk, hi, ih]

/-- Key uniqueness invariant of the Python dict. -/
abbrev keysNodup (d : List (Nat × E)) : Prop := (d.map Prod.fst).Nodup

theorem dGet?_eq_none_of_not_mem (d : List (Nat × E)) (k : Nat)
    (h : k ∉ d.map Prod.fst) : dGet? d k = none := by
  induction d with
  | nil => rfl
  | cons kv rest ih =>
    simp only [List.map_cons, List.mem_cons, not_or] at h
    have : kv.1 ≠ k := fun hh => h.1 hh.symm
    simp [dGet?, this, ih h.2]

theorem mem_keys_of_dGet? {d : List (Nat × E)} {k : Nat} {v : E}
    (h : dGet? d k = some v) : k ∈ d.map Prod.fst := by
  induction d with
  | nil => simp [dGet?] at h
  | cons kv rest ih =>
    by_cases hk : kv.1 = k
    · simp [hk]
    · simp only [dGet?, if_neg hk] at h
      simp [ih h]

theorem mem_of_dGet? {d : List (Nat × E)} {k : Nat} {v : E}
    (h : dGet? d k = some v) : (k, v) ∈ d := by
  induction d with
  | nil => simp [dGet?] at h
  | cons kv rest ih =>
    by_cases hk : kv.1 = k
    · simp only [dGet?, if_pos hk] at h
      obtain ⟨a, b⟩ := kv
      simp only at hk h
      subst hk
      rw [Option.some_inj] at h
      subst h
      exact List.mem_cons_self _ _
    · simp only [dGet?, if_neg hk] at h
      exact List.mem_cons_of_mem _ (ih h)

theorem dGet?_of_mem {d : List (Nat × E)} {k : Nat} {v : E}
    (hmem : (k, v) ∈ d) (h : keysNodup d) : dGet? d k = some v := by
  induction d with
  | nil => simp at hmem
  | cons kv rest ih =>
    simp only [keysNodup, List.map_cons, List.nodup_cons] at h
    rcases List.mem_cons.mp hmem with rfl | hmem'
    · simp [dGet?]
    · have hk : kv.1 ≠ k := by
        rintro rfl
        exact h.1 (List.mem_map.mpr ⟨(kv.1, v), hmem', rfl⟩)
      simp [dGet?, hk, ih hmem' h.2]

theorem dGet?_dErase_self (d : List (Nat × E)) (k : Nat) (h : keysNodup d) :
    dGet? (dErase d k) k = none := by
  induction d with
  | nil => rfl
  | cons kv rest ih =>
    simp only [keysNodup, List.map_cons, List.nodup_cons] at h
    by_cases hk : kv.1 = k
    · subst hk
      simp only [dErase, if_pos rfl]
      exact dGet?_eq_none_of_not_mem rest kv.1 h.1
    · simp [dErase, dGet?, hk, ih h.2]

theorem mem_keys_dInsert {d : List (Nat × E)} {k i : Nat} {v : E}
    (h : i ∈ (dInsert d k v).map Prod.fst) : i = k ∨ i ∈ d.map Prod.fst := by
  induction d with
  | nil => simp [dInsert] at h; simp [h]
  | cons kv rest ih =>
    by_cases hk : kv.1 = k
    · simp only [dInsert, if_pos hk, List.map_cons, List.mem_cons] at h
      rcases h with rfl | h
      · exact Or.inl rfl
      · exact Or.inr (by simp [h])
    · simp only [dInsert, if_neg hk, List.map_cons, List.mem_cons] at h
      rcases h with rfl | h
      · exact Or.inr (by simp)
      · rcases ih h with h1 | h1
        · exact Or.inl h1
        · exact Or.inr (by simp [h1])

theorem keysNodup_dInsert (d : List (Nat × E)) (k : Nat) (v : E) (h : keysNodup d) :
    keysNodup (dInsert d k v) := by
  induction d with
  | nil => simp [dInsert, keysNodup]
  | cons kv rest ih =>
    simp only [keysNodup, List.map_cons, List.nodup_cons] at h
    by_cases hk : kv.1 = k
    · subst hk
      simpa [dInsert, keysNodup] using h
    · have ih' := ih h.2
      simp only [keysNodup, dInsert, if_neg hk, List.map_cons, List.nodup_cons]
      refine ⟨fun hmem => ?_, ih'⟩
      rcases mem_keys_dInsert hmem with rfl | h1
      · exact hk rfl
      · exact h.1 h1

theorem keysNodup_dErase (d : List (Nat × E)) (k : Nat) (h : keysNodup d) :
    keysNodup (dErase d k) := by
  induction d with
  | nil => simpa [dErase] using h
  | cons kv rest ih =>
    simp only [keysNodup, List.map_cons, List.nodup_cons] at h
    by_cases hk : kv.1 = k
    · simpa [dErase, hk, keysNodup] using h.2
    · have ih' := ih h.2
      simp only [keysNodup, dErase, if_neg hk, List.map_cons, List.nodup_cons]
      refine ⟨fun hmem => ?_, ih'⟩
      have : List.Sublist ((dErase rest k).map Prod.fst) (rest.map Prod.fst) := by
        clear h ih ih' hmem
        induction rest with
        | nil => simp [dErase]
        | cons kv2 rest2 ih2 =>
          by_cases hk2 : kv2.1 = k
          · simp [dErase, hk2]
          · simp only [dErase, if_neg hk2, List.map_cons]
            exact List.Sublist.cons₂ _ ih2
      exact h.1 (this.mem hmem)

theorem foldl_dErase_dGet? (L : List Nat) (d : List (Nat × E)) (k : Nat)
    (h : keysNodup d) :
    dGet? (L.foldl dErase d) k = if k ∈ L then none else dGet? d k := by
  induction L generalizing d with
  | nil => simp
  | cons a L ih =>
    simp only [List.foldl_cons]
    rw [ih _ (keysNodup_dErase d a h)]
    by_cases hkL : k ∈ L
    · simp [hkL]
    · by_cases hka : k = a
      · subst hka
        simp [hkL, dGet?_dErase_self d k h]
      · simp [hkL, hka, dGet?_dErase_ne d a k (fun hh => hka hh.symm)]

/-! Undo stack and operation sequence lemmas. -/

theorem length_pushUndo (a : UndoAct E) (s : List (UndoAct E)) :
    (pushUndo a s).length ≤ MAX_UNDO_STEPS := by
  simp only [pushUndo, List.length_take]
  omega

theorem pushUndo_take (a : UndoAct E) (s : List (UndoAct E)) :
    pushUndo a s = a :: s.take (MAX_UNDO_STEPS - 1) := by
  rfl

theorem pushUndo_full (a : UndoAct E) (s : List (UndoAct E))
    (h : s.length = MAX_UNDO_STEPS) :
    pushUndo a s = a :: s.dropLast := by
  rw [pushUndo_take, List.dropLast_eq_take, h]

variable {P Q : Type}

theorem bookAdd_fresh [EntryId E] (b : Book E) (e : E) (h : EntryId.getId e = 0) :
    (bookAdd b e).1 = b.max_id + 1 := by
  simp [bookAdd, h, EntryId.getId_setId]

theorem bookAdd_fst_le_max [EntryId E] (b : Book E) (e : E) :
    (bookAdd b e).1 ≤ (bookAdd b e).2.max_id := by
  simp [bookAdd, Nat.le_max_right]

theorem bookStep_max_le [EntryId E] (mk : Nat → P → Except PAErr E)
    (clone : E → Except PAErr E) (upd : E → Q → E × Option PAErr)
    (b : Book E) (op : BookOp E P Q) :
    b.max_id ≤ (bookStep mk clone upd b op).max_id := by
  cases op with
  | addO e => simp [bookStep, bookAdd, Nat.le_max_left]
  | createO p =>
    simp only [bookStep, create_and_add]
    cases mk 0 p with
    | error err => simp
    | ok entry => simp [bookAdd, Nat.le_max_left]
  | deleteO i =>
    simp only [bookStep, bookDelete]
    cases dGet? b.data i <;> simp
  | editO i p =>
    simp only [bookStep, bookEdit]
    cases dGet? b.data i with
    | none => simp
    | some old =>
      rcases hclone : clone old with err | copy <;> simp [hclone]
  | undoO =>
    simp only [bookStep, bookUndo]
    cases b.undo_stack with
    | nil => simp
    | cons act rest => cases act <;> simp

theorem bookRun_max_le [EntryId E] (mk : Nat → P → Except PAErr E)
    (clone : E → Except PAErr E) (upd : E → Q → E × Option PAErr)
    (b : Book E) (ops : List (BookOp E P Q)) :
    b.max_id ≤ (bookRun mk clone upd b ops).max_id := by
  induction ops generalizing b with
  | nil => simp [bookRun]
  | cons op ops ih =>
    exact le_trans (bookStep_max_le mk clone upd b op) (ih _)

theorem bookRunIds_fst [EntryId E] (mk : Nat → P → Except PAErr E)
    (clone : E → Except PAErr E) (upd : E → Q → E × Option PAErr)
    (b : Book E) (ops : List (BookOp E P Q)) :
    (bookRunIds mk clone upd b ops).1 = bookRun mk clone upd b ops := by
  induction ops generalizing b with
  | nil => rfl
  | cons op ops ih => simp [bookRunIds, bookRun, ih]

theorem bookRunIds_le [EntryId E] (mk : Nat → P → Except PAErr E)
    (clone : E → Except PAErr E) (upd : E → Q → E × Option PAErr)
    (b : Book E) (ops : List (BookOp E P Q)) :
    ∀ i ∈ (bookRunIds mk clone upd b ops).2,
      i ≤ (bookRunIds mk clone upd b ops).1.max_id := by
  induction ops generalizing b with
  | nil => simp [bookRunIds]
  | cons op ops ih =>
    intro i hi
    simp only [bookRunIds, List.mem_append] at hi
    have hfinal : (bookRunIds mk clone upd b (op :: ops)).1 =
        (bookRunIds mk clone upd (bookStep mk clone upd b op) ops).1 := rfl
    rcases hi with hi | hi
    · have hstep : i ≤ (bookStep mk clone upd b op).max_id := by
        cases op with
        | addO e =>
          simp only [List.mem_singleton] at hi
          subst hi
          exact bookAdd_fst_le_max b e
        | createO p =>
          rcases hmk : mk 0 p with err | entry
          · simp only [create_and_add, hmk] at hi
            exact absurd hi (List.not_mem_nil i)
          · simp only [create_and_add, hmk, List.mem_singleton] at hi
            subst hi
            have hb : bookStep mk clone upd b (BookOp.createO p) = (bookAdd b entry).2 := by
              simp [bookStep, create_and_add, hmk]
            rw [hb]
            exact bookAdd_fst_le_max b entry
        | deleteO j => exact absurd hi (List.not_mem_nil i)
        | editO j p => exact absurd hi (List.not_mem_nil i)
        | undoO => exact absurd hi (List.not_mem_nil i)
      rw [hfinal, bookRunIds_fst]
      exact le_trans hstep (bookRun_max_le mk clone upd _ ops)
    · rw [hfinal]
      exact ih _ i hi

theorem bookStep_stack_le [EntryId E] (mk : Nat → P → Except PAErr E)
    (clone : E → Except PAErr E) (upd : E → Q → E × Option PAErr)
    (b : Book E) (op : BookOp E P Q)
    (h : b.undo_stack.length ≤ MAX_UNDO_STEPS) :
    (bookStep mk clone upd b op).undo_stack.length ≤ MAX_UNDO_STEPS := by
  cases op with
  | addO e => simp [bookStep, bookAdd, length_pushUndo]
  | createO p =>
    simp only [bookStep, create_and_add]
    cases mk 0 p with
    | error err => simpa using h
    | ok entry => simp [bookAdd, length_pushUndo]
  | deleteO i =>
    simp only [bookStep, bookDelete]
    cases dGet? b.data i with
    | some old => simp [length_pushUndo]
    | none => simpa using h
  | editO i p =>
    simp only [bookStep, bookEdit]
    cases dGet? b.data i with
    | none => simpa using h
    | some old =>
      rcases hclone : clone old with err | copy
      · simpa [hclone] using h
      · simp [hclone, length_pushUndo]
  | undoO =>
    simp only [bookStep, bookUndo]
    cases hs : b.undo_stack with
    | nil => exact h
    | cons act rest =>
      rw [hs] at h
      simp only [List.length_cons] at h
      cases act <;> simp <;> omega

theorem bookRun_stack_le [EntryId E] (mk : Nat → P → Except PAErr E)
    (clone : E → Except PAErr E) (upd : E → Q → E × Option PAErr)
    (b : Book E) (ops : List (BookOp E P Q))
    (h : b.undo_stack.length ≤ MAX_UNDO_STEPS) :
    (bookRun mk clone upd b ops).undo_stack.length ≤ MAX_UNDO_STEPS := by
  induction ops generalizing b with
  | nil => exact h
  | cons op ops ih =>
    exact ih _ (bookStep_stack_le mk clone upd b op h)

/-! Load lemmas. -/

variable {D : Type}

theorem loadEntries_cons_ok {fd : D → Except PAErr E} {k : Nat} {v : D}
    {rest : List (Nat × D)} {bk bk' : Book E} {entry : E}
    (hfd : fd v = .ok entry)
    (h : loadEntries fd ((k, v) :: rest) bk = .ok bk') :
    loadEntries fd rest
      { bk with data := dInsert bk.data k entry, max_id := max bk.max_id k } = .ok bk' := by
  simp only [loadEntries, hfd] at h
  exact h

theorem loadEntries_cons_err {fd : D → Except PAErr E} {k : Nat} {v : D}
    {rest : List (Nat × D)} {bk bk' : Book E} {err : PAErr}
    (hfd : fd v = .error err)
    (h : loadEntries fd ((k, v) :: rest) bk = .ok bk') : False := by
  simp only [loadEntries, hfd] at h
  exact Except.noConfusion h

theorem loadEntries_stack (fd : D → Except PAErr E) (l : List (Nat × D))
    (bk bk' : Book E) (h : loadEntries fd l bk = .ok bk') :
    bk'.undo_stack = bk.undo_stack := by
  induction l generalizing bk with
  | nil =>
    simp only [loadEntries] at h
    cases h
    rfl
  | cons kv rest ih =>
    obtain ⟨k, v⟩ := kv
    rcases hfd : fd v with err | entry
    · exact absurd h (fun h => loadEntries_cons_err hfd h)
    · exact ih { bk with data := dInsert bk.data k entry, max_id := max bk.max_id k }
        (loadEntries_cons_ok hfd h)

theorem loadEntries_max_le (fd : D → Except PAErr E) (l : List (Nat × D))
    (bk bk' : Book E) (h : loadEntries fd l bk = .ok bk') :
    bk.max_id ≤ bk'.max_id := by
  induction l generalizing bk with
  | nil =>
    simp only [loadEntries] at h
    cases h
    exact le_refl _
  | cons kv rest ih =>
    obtain ⟨k, v⟩ := kv
    rcases hfd : fd v with err | entry
    · exact absurd h (fun h => loadEntries_cons_err hfd h)
    · exact le_trans (Nat.le_max_left _ _) (ih _ (loadEntries_cons_ok hfd h))

theorem loadEntries_key_le (fd : D → Except PAErr E) (l : List (Nat × D))
    (bk bk' : Book E) (h : loadEntries fd l bk = .ok bk') :
    ∀ kv ∈ l, kv.1 ≤ bk'.max_id := by
  induction l generalizing bk with
  | nil => simp
  | cons kv0 rest ih =>
    intro kv hkv
    obtain ⟨k, v⟩ := kv0
    rcases hfd : fd v with err | entry
    · exact absurd h (fun h => loadEntries_cons_err hfd h)
    · have h' := loadEntries_cons_ok hfd h
      rcases List.mem_cons.mp hkv with rfl | hkv'
      · exact le_trans (Nat.le_max_right _ _) (loadEntries_max_le fd rest _ _ h')
      · exact ih _ h' kv hkv'

theorem loadEntries_get_preserve (fd : D → Except PAErr E) (l : List (Nat × D))
    (bk bk' : Book E) (k : Nat) (h : loadEntries fd l bk = .ok bk')
    (hk : k ∉ l.map Prod.fst) : dGet? bk'.data k = dGet? bk.data k := by
  induction l generalizing bk with
  | nil =>
    simp only [loadEntries] at h
    cases h
    rfl
  | cons kv rest ih =>
    obtain ⟨k0, v⟩ := kv
    simp only [List.map_cons, List.mem_cons, not_or] at hk
    rcases hfd : fd v with err | entry
    · exact absurd h (fun h => loadEntries_cons_err hfd h)
    · rw [ih _ (loadEntries_cons_ok hfd h) hk.2]
      exact dGet?_dInsert_ne bk.data k0 k entry (fun hh => hk.1 hh.symm)

theorem loadEntries_get (fd : D → Except PAErr E) (l : List (Nat × D))
    (bk bk' : Book E) (h : loadEntries fd l bk = .ok bk')
    (hnd : (l.map Prod.fst).Nodup) :
    ∀ kv ∈ l, ∃ e, fd kv.2 = .ok e ∧ dGet? bk'.data kv.1 = some e := by
  induction l generalizing bk with
  | nil => simp
  | cons kv0 rest ih =>
    intro kv hkv
    obtain ⟨k0, v⟩ := kv0
    simp only [List.map_cons, List.nodup_cons] at hnd
    rcases hfd : fd v with err | entry
    · exact absurd h (fun h => loadEntries_cons_err hfd h)
    · have h' := loadEntries_cons_ok hfd h
      rcases List.mem_cons.mp hkv with rfl | hkv'
      · refine ⟨entry, hfd, ?_⟩
        rw [loadEntries_get_preserve fd rest _ _ k0 h' hnd.1]
        exact dGet?_dInsert_self bk.data k0 entry
      · exact ih _ h' hnd.2 kv hkv'

/-! Cascade and detach lemmas. -/

theorem dErase_of_not_mem (d : List (Nat × E)) (i : Nat)
    (h : dGet? d i = none) : dErase d i = d := by
  induction d with
  | nil => rfl
  | cons kv rest ih =>
    by_cases hk : kv.1 = i
    · simp [dGet?, hk] at h
    · simp only [dGet?, if_neg hk] at h
      simp [dErase, hk, ih h]

theorem bookDelete_data (b : Book E) (i : Nat) :
    (bookDelete b i).2.data = dErase b.data i := by
  rcases hg : dGet? b.data i with _ | old
  · simp [bookDelete, hg, dErase_of_not_mem b.data i hg]
  · simp [bookDelete, hg]

theorem cascadeFold_data (L : List Note) (nb : Book Note) :
    (L.foldl (fun bk note => (bookDelete bk note.id).2) nb).data =
      (L.map Note.id).foldl dErase nb.data := by
  induction L generalizing nb with
  | nil => rfl
  | cons n L ih =>
    simp only [List.foldl_cons, List.map_cons]
    rw [ih, bookDelete_data]

theorem detachFold_get_notmem (cid : Nat) (L : List Note) (nb : Book Note)
    (k : Nat) (hk : k ∉ L.map Note.id) :
    dGet? (L.foldl (detachNote cid) nb).data k = dGet? nb.data k := by
  induction L generalizing nb with
  | nil => rfl
  | cons n L ih =>
    simp only [List.map_cons, List.mem_cons, not_or] at hk
    simp only [List.foldl_cons]
    rw [ih _ hk.2]
    unfold detachNote
    split
    · exact dGet?_dInsert_ne nb.data n.id k _ (fun hh => hk.1 hh.symm)
    · rfl

theorem detachFold_get_mem (cid : Nat) (L : List Note) (nb : Book Note)
    (hnd : (L.map Note.id).Nodup)
    (hall : ∀ m ∈ L, m.contact_ids.contains cid = true)
    (hget : ∀ m ∈ L, dGet? nb.data m.id = some m) :
    ∀ m ∈ L, dGet? (L.foldl (detachNote cid) nb).data m.id =
      some { m with contact_ids := m.contact_ids.erase cid } := by
  induction L generalizing nb with
  | nil => simp
  | cons n L ih =>
    intro m hm
    simp only [List.map_cons, List.nodup_cons] at hnd
    simp only [List.foldl_cons]
    have hstep : detachNote cid nb n =
        { nb with data := dInsert nb.data n.id { n with contact_ids := n.contact_ids.erase cid } } := by
      unfold detachNote
      rw [if_pos (hall n (List.mem_cons_self n L))]
    rcases List.mem_cons.mp hm with rfl | hm'
    · rw [hstep, detachFold_get_notmem cid L _ m.id hnd.1]
      exact dGet?_dInsert_self nb.data m.id _
    · refine ih _ hnd.2 (fun x hx => hall x (List.mem_cons_of_mem n hx)) ?_ m hm'
      intro x hx
      rw [hstep]
      have hne : n.id ≠ x.id := by
        intro hh
        exact hnd.1 (hh ▸ List.mem_map.mpr ⟨x, hx, rfl⟩)
      rw [dGet?_dInsert_ne nb.data n.id x.id _ hne]
      exact hget x (List.mem_cons_of_mem n hx)

theorem linked_ids_nodup (nb : Book Note) (cid : Nat) (hnd : keysNodup nb.data)
    (hids : ∀ kv ∈ nb.data, (kv.2).id = kv.1) :
    ((find_by_contact_id nb cid).map Note.id).Nodup := by
  have hsub : List.Sublist ((find_by_contact_id nb cid).map Note.id)
      ((nb.data.map Prod.snd).map Note.id) :=
    (List.filter_sublist _).map Note.id
  have heq : (nb.data.map Prod.snd).map Note.id = nb.data.map Prod.fst := by
    rw [List.map_map]
    exact List.map_congr_left (fun kv hkv => hids kv hkv)
  rw [heq] at hsub
  exact hnd.sublist hsub

theorem mem_linked (nb : Book Note) (cid : Nat) :
    ∀ m ∈ find_by_contact_id nb cid,
      m.contact_ids.contains cid = true ∧ m ∈ nb.data.map Prod.snd := by
  intro m hm
  have := List.mem_filter.mp hm
  exact ⟨this.2, this.1⟩

theorem linked_get (nb : Book Note) (cid : Nat) (hnd : keysNodup nb.data)
    (hids : ∀ kv ∈ nb.data, (kv.2).id = kv.1) :
    ∀ m ∈ find_by_contact_id nb cid, dGet? nb.data m.id = some m := by
  intro m hm
  obtain ⟨_, hmv⟩ := mem_linked nb cid m hm
  obtain ⟨kv, hkv, hkv2⟩ := List.mem_map.mp hmv
  have hid : m.id = kv.1 := by rw [← hkv2]; exact hids kv hkv
  rw [hid]
  have : (kv.1, m) ∈ nb.data := by
    obtain ⟨a, b⟩ := kv
    simp only at hkv2
    rw [hkv2] at hkv
    exact hkv
  exact dGet?_of_mem this hnd

theorem mem_linked_ids_iff (nb : Book Note) (cid : Nat) (hnd : keysNodup nb.data)
    (hids : ∀ kv ∈ nb.data, (kv.2).id = kv.1) (k : Nat) (n : Note)
    (hget : dGet? nb.data k = some n) :
    k ∈ (find_by_contact_id nb cid).map Note.id ↔ n.contact_ids.contains cid = true := by
  constructor
  · intro hk
    obtain ⟨m, hm, hmid⟩ := List.mem_map.mp hk
    have := linked_get nb cid hnd hids m hm
    rw [hmid, hget] at this
    injection this with hnm
    subst hnm
    exact (mem_linked nb cid n hm).1
  · intro hc
    have hmem : (k, n) ∈ nb.data := mem_of_dGet? hget
    have hnv : n ∈ nb.data.map Prod.snd := List.mem_map.mpr ⟨(k, n), hmem, rfl⟩
    have hlink : n ∈ find_by_contact_id nb cid := List.mem_filter.mpr ⟨hnv, hc⟩
    have hid : n.id = k := hids (k, n) hmem
    exact List.mem_map.mpr ⟨n, hlink, hid⟩

/-! Claim theorems. -/

/-- A sample timestamp standing for the current time in concrete instances. -/
def sampleTime : PyDateTime := ⟨2024, 1, 1, 0, 0, 0, 0⟩

/-- A sample note used by concrete instances. -/
def noteHi : Note :=
  { id := 1, text := chars "hi", tags := [], contact_ids := [],
    created_at := sampleTime }

/-- A one note notebook used by concrete instances. -/
def noteBookHi : Book Note :=
  { data := [(1, noteHi)], undo_stack := [], max_id := 1 }

/-- C1 (amended): create_and_add raises ValidationError exactly when Record
construction raises, which for a Contact means a non empty birthday string
that parses under neither accepted date format — name, phones and emails are
not validated at construction — and for a Note means text that strips to
empty; on such a failure the mapping, the undo log and the max id counter
come back unchanged. -/
theorem c1_create_validation :
    (∀ (b : Book Contact) (f : ContactFields),
      (create_and_add mkContact b f).1 = .error .validation ↔
        ∃ s, f.birthday = some s ∧ s.isEmpty = false ∧ parse_birthday s = none) ∧
    (∀ (b : Book Contact) (f : ContactFields) (err : PAErr),
      (create_and_add mkContact b f).1 = .error err →
      (create_and_add mkContact b f).2 = b) ∧
    (∀ (now : PyDateTime) (b : Book Note) (f : NoteFields),
      (create_and_add (mkNote now) b f).1 = .error .validation ↔
        (pyStrip f.text).isEmpty = true) ∧
    (∀ (now : PyDateTime) (b : Book Note) (f : NoteFields) (err : PAErr),
      (create_and_add (mkNote now) b f).1 = .error err →
      (create_and_add (mkNote now) b f).2 = b) := by
  refine ⟨?_, ?_, ?_, ?_⟩
  · intro b f
    rcases hb : f.birthday with _ | s
    · simp [create_and_add, mkContact, hb]
    · by_cases he : s.isEmpty
      · have hsnil : s = [] := List.isEmpty_iff.mp he
        simp only [create_and_add, mkContact, hb, he]
        simp
        intro hne
        exact absurd hsnil hne
      · rcases hp : parse_birthday s with _ | d
        · simp [create_and_add, mkContact, hb, he, hp]
          exact fun hs => he (by simp [hs])
        · simp [create_and_add, mkContact, hb, he, hp]
  · intro b f err h
    rcases hmk : mkContact 0 f with e | entry
    · simp [create_and_add, hmk]
    · simp [create_and_add, hmk] at h
  · intro now b f
    by_cases he : (pyStrip f.text).isEmpty
    · simp [create_and_add, mkNote, he]
    · simp [create_and_add, mkNote, he]
  · intro now b f err h
    rcases hmk : mkNote now 0 f with e | entry
    · simp [create_and_add, hmk]
    · simp [create_and_add, hmk] at h

/-- C1 witness: a whitespace only note text fails and leaves the book
unchanged. -/
theorem c1_witness :
    (create_and_add (mkNote sampleTime) (emptyBook : Book Note)
      { text := chars " ", tags := [], contact_ids := [] }).2 = emptyBook :=
  c1_create_validation.2.2.2 sampleTime emptyBook
    { text := chars " ", tags := [], contact_ids := [] } .validation rfl

/-- C1 counterexample: a Contact whose phone, email and name all violate
their format contracts is created without any error, so creation does not
fail whenever some field violates its format contract. -/
theorem c1_counterexample :
    (create_and_add mkContact (emptyBook : Book Contact)
      { name := [], phones := [chars "abc"], emails := [chars "bad"],
        birthday := none }).1 = .ok 1 ∧
    validate_phone (chars "abc") = [] ∧
    validate_email (chars "bad") = false ∧
    pyStrip [] = [] :=
  ⟨rfl, rfl, rfl, rfl⟩

/-- C2: over any operation sequence the max id counter never decreases, a
fresh record (id zero) is assigned previous max plus one, and such an id is
strictly greater than every id handed out before, so ids are monotonically
increasing and never reused, also across delete and undo. -/
theorem c2_ids_monotone {E P Q : Type} [EntryId E] (mk : Nat → P → Except PAErr E)
    (clone : E → Except PAErr E) (upd : E → Q → E × Option PAErr) :
    (∀ (b : Book E) (op : BookOp E P Q), b.max_id ≤ (bookStep mk clone upd b op).max_id) ∧
    (∀ (b : Book E) (e : E), EntryId.getId e = 0 → (bookAdd b e).1 = b.max_id + 1) ∧
    (∀ (b : Book E) (ops : List (BookOp E P Q)) (e : E), EntryId.getId e = 0 →
      ∀ i ∈ (bookRunIds mk clone upd b ops).2,
        i < (bookAdd (bookRunIds mk clone upd b ops).1 e).1) := by
  refine ⟨bookStep_max_le mk clone upd, bookAdd_fresh, ?_⟩
  intro b ops e he i hi
  have h1 := bookRunIds_le mk clone upd b ops i hi
  rw [bookAdd_fresh _ e he]
  omega

/-- C2 witness: after creating a note (id one), deleting it and undoing the
deletion, a fresh record is assigned an id strictly greater than one. -/
theorem c2_witness :
    1 < (bookAdd (bookRunIds (mkNote sampleTime)
        (fun n => noteFromDict sampleTime (noteToDict n)) noteUpdate
        (emptyBook : Book Note)
        [BookOp.createO { text := chars "a", tags := [], contact_ids := [] },
          BookOp.deleteO 1, BookOp.undoO]).1
      { id := 0, text := chars "b", tags := [], contact_ids := [],
        created_at := sampleTime }).1 :=
  (c2_ids_monotone (mkNote sampleTime)
      (fun n => noteFromDict sampleTime (noteToDict n)) noteUpdate).2.2
    emptyBook
    [BookOp.createO { text := chars "a", tags := [], contact_ids := [] },
      BookOp.deleteO 1, BookOp.undoO]
    { id := 0, text := chars "b", tags := [], contact_ids := [],
      created_at := sampleTime }
    rfl 1 (by decide)

/-- C3: deleting a present record and undoing immediately restores the very
record with all field values; undoing a delete entry re-inserts the saved
record unconditionally, overwriting whatever sits under that id; undo on an
empty log returns the nothing to undo message and leaves the book alone. -/
theorem c3_delete_undo {E : Type} :
    (∀ (b : Book E) (i : Nat) (X : E), dGet? b.data i = some X →
      (bookUndo (bookDelete b i).2).1 = UndoMsg.restored i ∧
      dGet? (bookUndo (bookDelete b i).2).2.data i = some X) ∧
    (∀ (b : Book E) (i : Nat) (old : E) (rest : List (UndoAct E)),
      b.undo_stack = UndoAct.delA i old :: rest →
      (bookUndo b).2.data = dInsert b.data i old ∧
      dGet? (bookUndo b).2.data i = some old) ∧
    (∀ b : Book E, b.undo_stack = [] → bookUndo b = (UndoMsg.nothingToUndo, b)) := by
  refine ⟨?_, ?_, ?_⟩
  · intro b i X h
    have hd : bookDelete b i = (true,
        { b with data := dErase b.data i,
                 undo_stack := pushUndo (UndoAct.delA i X) b.undo_stack }) := by
      simp [bookDelete, h]
    rw [hd, pushUndo_take]
    exact ⟨by trivial, dGet?_dInsert_self _ i X⟩
  · intro b i old rest h
    simp only [bookUndo, h]
    exact ⟨trivial, dGet?_dInsert_self _ i old⟩
  · intro b h
    simp [bookUndo, h]

/-- C3 witness: a concrete delete of note one followed by undo restores the
note with its text intact. -/
theorem c3_witness :
    dGet? (bookUndo (bookDelete noteBookHi 1).2).2.data 1 = some noteHi :=
  (c3_delete_undo.1 noteBookHi 1 noteHi rfl).2

/-- A sample contact whose only populated searchable field is the name. -/
def contactAbcd : Contact :=
  { id := 1, name := chars "abcd", phones := [], emails := [], birthday := none }

/-- C4 (amended): Note.matches holds exactly when the lowercased query is a
substring of the lowercased text or of a lowercased tag; Contact.matches
holds exactly when the lowercased query is a substring of the lowercased
name, of a phone as stored, of a lowercased email, of the birthday rendered
DD.MM.YYYY — or when the query is a close fuzzy match of the lowercased name
(difflib cutoff 0.7), so substring containment is sufficient but not
necessary for a Contact; find returns exactly the stored records whose
matches predicate holds. -/
theorem c4_matches :
    (∀ (n : Note) (q : Str), noteMatches n q = true ↔
      (lowerStr q <:+: lowerStr n.text ∨ ∃ t ∈ n.tags, lowerStr q <:+: lowerStr t)) ∧
    (∀ (c : Contact) (q : Str), contactMatches c q = true ↔
      (lowerStr q <:+: lowerStr c.name ∨
        closeMatch (lowerStr q) (lowerStr c.name) = true ∨
        (∃ p ∈ c.phones, lowerStr q <:+: p) ∨
        (∃ e ∈ c.emails, lowerStr q <:+: lowerStr e) ∨
        (∃ bd, c.birthday = some bd ∧ lowerStr q <:+: formatDMY bd.day bd.month bd.year))) ∧
    (∀ (E : Type) (m : E → Str → Bool) (b : Book E) (q : Str) (e : E),
      e ∈ bookFind m b q ↔ e ∈ b.data.map Prod.snd ∧ m e q = true) := by
  refine ⟨?_, ?_, ?_⟩
  · intro n q
    simp [noteMatches, substrIn_iff, List.any_eq_true]
  · intro c q
    rcases hbd : c.birthday with _ | bd <;>
      simp [contactMatches, hbd, substrIn_iff, List.any_eq_true]
  · intro E m b q e
    simp [bookFind, List.mem_filter]

/-- C4 counterexample: the contact named abcd matches the query abce through
the fuzzy name comparison although the lowercased query is a substring of no
searchable field, refuting the claimed equivalence with substring
containment. -/
theorem c4_counterexample :
    contactMatches contactAbcd (chars "abce") = true ∧
    substrIn (lowerStr (chars "abce")) (lowerStr (chars "abcd")) = false := by
  refine ⟨by decide, by decide⟩

/-- C5 (amended): edit fails with NotFoundError on an absent id leaving the
book untouched; on a present id it pushes an edit entry holding the clone
obtained by the serialization round trip and then applies update, keeping
its result and error; update applies exactly the fields present in the
patch, but only a changed Contact birthday is re-validated — a Note update
never fails, so editing a Note text to an empty value succeeds. -/
theorem c5_edit :
    (∀ {E P : Type} (clone : E → Except PAErr E) (upd : E → P → E × Option PAErr)
        (b : Book E) (i : Nat) (p : P), dGet? b.data i = none →
      bookEdit clone upd b i p = (b, some (.notFound i))) ∧
    (∀ {E P : Type} (clone : E → Except PAErr E) (upd : E → P → E × Option PAErr)
        (b : Book E) (i : Nat) (p : P) (old copy : E),
      dGet? b.data i = some old → clone old = .ok copy →
      bookEdit clone upd b i p =
        ({ b with data := dInsert b.data i (upd old p).1,
                  undo_stack := pushUndo (.editA i copy) b.undo_stack }, (upd old p).2)) ∧
    (∀ (n : Note) (p : NotePatch),
      (noteUpdate n p).2 = none ∧
      (noteUpdate n p).1.text = p.text.getD n.text ∧
      (noteUpdate n p).1.tags = p.tags.getD n.tags ∧
      (noteUpdate n p).1.contact_ids = p.contact_ids.getD n.contact_ids ∧
      (noteUpdate n p).1.id = n.id ∧
      (noteUpdate n p).1.created_at = n.created_at) ∧
    (∀ (c : Contact) (p : ContactPatch) (s : Str),
      p.birthday = some s → parse_birthday s = none →
      (contactUpdate c p).2 = some .validation) := by
  refine ⟨?_, ?_, ?_, ?_⟩
  · intro E P clone upd b i p h
    simp [bookEdit, h]
  · intro E P clone upd b i p old copy h1 h2
    simp [bookEdit, h1, h2]
  · intro n p
    obtain ⟨pt, ptg, pc⟩ := p
    cases pt <;> cases ptg <;> cases pc <;> simp [noteUpdate]
  · intro c p s h1 h2
    obtain ⟨pn, pp, pe, pb⟩ := p
    simp only at h1
    subst h1
    cases pn <;> cases pp <;> cases pe <;> simp [contactUpdate, h2]

/-- The Notebook clone function, serialization round trip with a fixed
current time for the fallback. -/
def noteClone (n : Note) : Except PAErr Note := noteFromDict sampleTime (noteToDict n)

/-- A patch setting the note text to whitespace only. -/
def wsTextPatch : NotePatch :=
  { text := some (chars "   "), tags := none, contact_ids := none }

/-- C5 witness: editing an absent id returns NotFoundError and the empty
notebook unchanged. -/
theorem c5_witness :
    bookEdit noteClone noteUpdate (emptyBook : Book Note) 5
      { text := none, tags := none, contact_ids := none } =
      (emptyBook, some (.notFound 5)) :=
  c5_edit.1 noteClone noteUpdate emptyBook 5
    { text := none, tags := none, contact_ids := none } rfl

/-- C5 counterexample: editing the text of a stored note to whitespace only
succeeds with no error and stores the invalid text, so a changed Note text
is not re-validated. -/
theorem c5_counterexample :
    (bookEdit noteClone noteUpdate noteBookHi 1 wsTextPatch).2 = none ∧
    (dGet? (bookEdit noteClone noteUpdate noteBookHi 1 wsTextPatch).1.data 1).map
        Note.text = some (chars "   ") ∧
    pyStrip (chars "   ") = [] := by
  refine ⟨by decide, by decide, by decide⟩

/-- C6: load yields a fresh empty book (max id zero) on a missing or
malformed file without raising; the next create on an empty book assigns id
one; when the content parses and every entry deserializes, each entry is
stored under its key via from_dict, every key is at most the resulting max
id, the undo log stays empty, and the next fresh add is assigned max plus
one, colliding with no loaded id. -/
theorem c6_load {D E : Type} [EntryId E] (fd : D → Except PAErr E) :
    (bookLoad fd none = .ok (emptyBook : Book E) ∧ (emptyBook : Book E).max_id = 0) ∧
    (∀ (now : PyDateTime) (f : NoteFields), (pyStrip f.text).isEmpty = false →
      (create_and_add (mkNote now) (emptyBook : Book Note) f).1 = .ok 1) ∧
    (∀ (entries : List (Nat × D)) (bk : Book E), (entries.map Prod.fst).Nodup →
      bookLoad fd (some entries) = .ok bk →
      bk.undo_stack = [] ∧
      (∀ kv ∈ entries, ∃ e, fd kv.2 = .ok e ∧ dGet? bk.data kv.1 = some e) ∧
      (∀ kv ∈ entries, kv.1 ≤ bk.max_id) ∧
      (∀ e : E, EntryId.getId e = 0 →
        (bookAdd bk e).1 = bk.max_id + 1 ∧ ∀ kv ∈ entries, kv.1 < (bookAdd bk e).1)) := by
  refine ⟨⟨rfl, rfl⟩, ?_, ?_⟩
  · intro now f hf
    simp [create_and_add, mkNote, hf, bookAdd, EntryId.getId, EntryId.setId, emptyBook]
  · intro entries bk hnd hload
    have h1 : loadEntries fd entries emptyBook = .ok bk := hload
    refine ⟨?_, ?_, ?_, ?_⟩
    · exact loadEntries_stack fd entries emptyBook bk h1
    · exact loadEntries_get fd entries emptyBook bk h1 hnd
    · exact loadEntries_key_le fd entries emptyBook bk h1
    · intro e he
      have hfresh := bookAdd_fresh bk e he
      refine ⟨hfresh, ?_⟩
      intro kv hkv
      have := loadEntries_key_le fd entries emptyBook bk h1 kv hkv
      omega

/-- A sample note with id three used for the load instance. -/
def noteHi3 : Note :=
  { id := 3, text := chars "hi", tags := [], contact_ids := [],
    created_at := sampleTime }

/-- The book produced by loading the single entry with key three. -/
def c6Book : Book Note :=
  { data := [(3, noteHi3)], undo_stack := [], max_id := 3 }

/-- C6 witness: loading one parsed entry keyed three yields max id three,
bounding the loaded key. -/
theorem c6_witness : (3 : Nat) ≤ c6Book.max_id :=
  ((c6_load (noteFromDict sampleTime)).2.2 [(3, noteToDict noteHi3)] c6Book
      (by decide) rfl).2.2.1 (3, noteToDict noteHi3) (by decide)

/-- C7: starting from any book whose undo log respects the bound — the fresh
book in particular — no operation sequence ever pushes the log beyond
MAX_UNDO_STEPS entries; appending keeps the new entry and the most recent
previous ones, and on a full log it evicts exactly the oldest entry. -/
theorem c7_undo_bound {E P Q : Type} [EntryId E] (mk : Nat → P → Except PAErr E)
    (clone : E → Except PAErr E) (upd : E → Q → E × Option PAErr) :
    (∀ (b : Book E) (ops : List (BookOp E P Q)),
      b.undo_stack.length ≤ MAX_UNDO_STEPS →
      (bookRun mk clone upd b ops).undo_stack.length ≤ MAX_UNDO_STEPS) ∧
    (∀ (a : UndoAct E) (s : List (UndoAct E)),
      pushUndo a s = a :: s.take (MAX_UNDO_STEPS - 1)) ∧
    (∀ (a : UndoAct E) (s : List (UndoAct E)), s.length = MAX_UNDO_STEPS →
      pushUndo a s = a :: s.dropLast) := by
  exact ⟨fun b ops h => bookRun_stack_le mk clone upd b ops h,
    pushUndo_take, pushUndo_full⟩

/-- C7 witness: eleven consecutive adds on the fresh notebook leave the log
at the bound of ten. -/
theorem c7_witness :
    (bookRun (mkNote sampleTime) noteClone noteUpdate (emptyBook : Book Note)
      (List.replicate 11 (BookOp.addO noteHi))).undo_stack.length ≤ MAX_UNDO_STEPS :=
  (c7_undo_bound (mkNote sampleTime) noteClone noteUpdate).1 emptyBook
    (List.replicate 11 (BookOp.addO noteHi)) (by decide)

/-- C8 (amended): with well formed notebook state (unique keys each equal to
the stored note id), cascade removes exactly the notes whose contact_ids
mention the deleted contact and leaves the others untouched; detach keeps
every note, removing the first occurrence of the contact id from the listed
ones (Python list.remove) with all other fields unchanged, so whenever a note
lists the id at most once, no surviving note still mentions it. -/
theorem c8_delete_policy (ab : Book Contact) (nb : Book Note) (cid : Nat)
    (hnd : keysNodup nb.data) (hids : ∀ kv ∈ nb.data, (kv.2).id = kv.1) :
    (∀ (k : Nat) (n : Note), dGet? nb.data k = some n →
      dGet? (delete_contact_with_policy ab nb cid .cascade).2.data k =
        (if n.contact_ids.contains cid = true then none else some n)) ∧
    (∀ (k : Nat) (n : Note), dGet? nb.data k = some n →
      dGet? (delete_contact_with_policy ab nb cid .detach).2.data k =
        some (if n.contact_ids.contains cid = true then
          { n with contact_ids := n.contact_ids.erase cid } else n)) ∧
    (∀ (k : Nat) (n : Note), dGet? nb.data k = some n →
      n.contact_ids.count cid ≤ 1 →
      ∃ n', dGet? (delete_contact_with_policy ab nb cid .detach).2.data k = some n' ∧
        n'.contact_ids.contains cid = false ∧ n'.text = n.text ∧ n'.tags = n.tags ∧
        n'.created_at = n.created_at) := by
  have hdetach : ∀ (k : Nat) (n : Note), dGet? nb.data k = some n →
      dGet? (delete_contact_with_policy ab nb cid .detach).2.data k =
        some (if n.contact_ids.contains cid = true then
          { n with contact_ids := n.contact_ids.erase cid } else n) := by
    intro k n hget
    have hmem := mem_of_dGet? hget
    have hidk : n.id = k := hids (k, n) hmem
    show dGet? ((find_by_contact_id nb cid).foldl (detachNote cid) nb).data k = _
    by_cases hc : n.contact_ids.contains cid = true
    · have hnv : n ∈ nb.data.map Prod.snd := List.mem_map.mpr ⟨(k, n), hmem, rfl⟩
      have hlink : n ∈ find_by_contact_id nb cid := List.mem_filter.mpr ⟨hnv, hc⟩
      have hres := detachFold_get_mem cid (find_by_contact_id nb cid) nb
        (linked_ids_nodup nb cid hnd hids)
        (fun m hm => (mem_linked nb cid m hm).1)
        (linked_get nb cid hnd hids) n hlink
      rw [← hidk, hres, if_pos hc]
    · have hknot : k ∉ (find_by_contact_id nb cid).map Note.id :=
        fun hh => hc ((mem_linked_ids_iff nb cid hnd hids k n hget).mp hh)
      rw [detachFold_get_notmem cid _ nb k hknot, hget, if_neg hc]
  refine ⟨?_, hdetach, ?_⟩
  · intro k n hget
    show dGet? ((find_by_contact_id nb cid).foldl
      (fun bk note => (bookDelete bk note.id).2) nb).data k = _
    rw [cascadeFold_data, foldl_dErase_dGet? _ _ _ hnd]
    by_cases hc : n.contact_ids.contains cid = true
    · rw [if_pos ((mem_linked_ids_iff nb cid hnd hids k n hget).mpr hc), if_pos hc]
    · have hknot : k ∉ (find_by_contact_id nb cid).map Note.id :=
        fun hh => hc ((mem_linked_ids_iff nb cid hnd hids k n hget).mp hh)
      rw [if_neg hknot, if_neg hc, hget]
  · intro k n hget hcount
    refine ⟨if n.contact_ids.contains cid = true then
      { n with contact_ids := n.contact_ids.erase cid } else n, hdetach k n hget, ?_, ?_, ?_, ?_⟩
    · by_cases hc : n.contact_ids.contains cid = true
      · rw [if_pos hc]
        have hmem : cid ∈ n.contact_ids := List.elem_iff.mp hc
        have hpos : 0 < n.contact_ids.count cid := List.count_pos_iff.mpr hmem
        have hz : (n.contact_ids.erase cid).count cid = 0 := by
          rw [List.count_erase_self]
          omega
        have hnot : cid ∉ n.contact_ids.erase cid := List.count_eq_zero.mp hz
        exact Bool.eq_false_iff.mpr (fun hh => hnot (List.elem_iff.mp hh))
      · rw [if_neg hc]
        exact Bool.eq_false_iff.mpr hc
    · by_cases hm : cid ∈ n.contact_ids <;> simp [hm]
    · by_cases hm : cid ∈ n.contact_ids <;> simp [hm]
    · by_cases hm : cid ∈ n.contact_ids <;> simp [hm]

/-- A note mentioning contact one twice. -/
def noteDup : Note :=
  { id := 1, text := chars "x", tags := [], contact_ids := [1, 1],
    created_at := sampleTime }

/-- A notebook holding only the doubly linked note. -/
def noteBookDup : Book Note :=
  { data := [(1, noteDup)], undo_stack := [], max_id := 1 }

/-- C8 witness: with a singly linked note, detach leaves it stored with the
contact id gone from contact_ids. -/
theorem c8_witness :
    dGet? (delete_contact_with_policy emptyBook noteBookHi 1 .detach).2.data 1 =
      some noteHi :=
  ((c8_delete_policy emptyBook noteBookHi 1 (by decide)
      (by decide)).2.1 1 noteHi rfl).trans (by decide)

/-- C8 counterexample: a note listing contact one twice survives detach with
contact_ids still containing one, refuting that no remaining contact_ids
contains the deleted id. -/
theorem c8_counterexample :
    dGet? (delete_contact_with_policy emptyBook noteBookDup 1 .detach).2.data 1 =
      some { noteDup with contact_ids := [1] } ∧
    ([1] : List Nat).contains 1 = true := by
  refine ⟨by decide, by decide⟩

theorem trunc_eq_self {t : PyDateTime} (h : t.microsecond = 0) :
    { t with microsecond := 0 } = t := by
  obtain ⟨y, mo, d, hh, mi, ss, ms⟩ := t
  simp only at h
  subst h
  rfl

/-- C9: the record level round trip from_dict after to_dict preserves id,
text, tags and contact_ids and truncates created_at to whole seconds, since
the serialization carries no sub second precision; it is the identity
exactly when the microseconds are zero; and on the serialized side the round
trip to_dict after from_dict is the identity on every dictionary produced by
to_dict. -/
theorem c9_roundtrip :
    (∀ (n : Note) (now : PyDateTime), validDT n.created_at →
      (pyStrip n.text).isEmpty = false →
      noteFromDict now (noteToDict n) =
        .ok { n with created_at := { n.created_at with microsecond := 0 } }) ∧
    (∀ (n : Note) (now : PyDateTime), validDT n.created_at →
      (pyStrip n.text).isEmpty = false →
      (noteFromDict now (noteToDict n) = .ok n ↔ n.created_at.microsecond = 0)) ∧
    (∀ (n : Note) (now : PyDateTime), validDT n.created_at →
      (pyStrip n.text).isEmpty = false →
      (noteFromDict now (noteToDict n)).map noteToDict = .ok (noteToDict n)) := by
  have h1 : ∀ (n : Note) (now : PyDateTime), validDT n.created_at →
      (pyStrip n.text).isEmpty = false →
      noteFromDict now (noteToDict n) =
        .ok { n with created_at := { n.created_at with microsecond := 0 } } := by
    intro n now hv ht
    simp [noteFromDict, noteToDict, parse_format hv, ht]
  refine ⟨h1, ?_, ?_⟩
  · intro n now hv ht
    rw [h1 n now hv ht]
    constructor
    · intro h
      injection h with h2
      have h3 := congrArg (fun x : Note => x.created_at.microsecond) h2
      simpa using h3.symm
    · intro h0
      rw [trunc_eq_self h0]
  · intro n now hv ht
    rw [h1 n now hv ht]
    show Except.ok (noteToDict { n with created_at := { n.created_at with microsecond := 0 } }) = _
    rfl

/-- A note carrying a sub second timestamp. -/
def noteMicro : Note :=
  { id := 7, text := chars "m", tags := [], contact_ids := [],
    created_at := ⟨2024, 1, 1, 0, 0, 0, 789⟩ }

/-- C9 witness: the concrete round trip truncates the 789 microseconds. -/
theorem c9_witness :
    noteFromDict sampleTime (noteToDict noteMicro) =
      .ok { noteMicro with created_at := { noteMicro.created_at with microsecond := 0 } } :=
  c9_roundtrip.1 noteMicro sampleTime (by decide) (by decide)

/-- C10: add on a record with a positive id keeps that id, stores the record
under it overwriting silently whatever was there, raises the counter to the
maximum of old counter and id, pushes an add entry carrying only the id, and
a following undo erases the id from the mapping outright, so the overwritten
record is unrecoverable.  The equalities also show add is total: it never
raises. -/
theorem c10_add_overwrite {E : Type} [EntryId E] (b : Book E) (e : E)
    (h : 0 < EntryId.getId e) :
    (bookAdd b e).1 = EntryId.getId e ∧
    (bookAdd b e).2.data = dInsert b.data (EntryId.getId e) e ∧
    dGet? (bookAdd b e).2.data (EntryId.getId e) = some e ∧
    (bookAdd b e).2.undo_stack = pushUndo (.addA (EntryId.getId e)) b.undo_stack ∧
    (bookAdd b e).2.max_id = max b.max_id (EntryId.getId e) ∧
    (bookUndo (bookAdd b e).2).2.data = dErase b.data (EntryId.getId e) := by
  have hne : EntryId.getId e ≠ 0 := by omega
  have hb : bookAdd b e = (EntryId.getId e,
      { data := dInsert b.data (EntryId.getId e) e,
        undo_stack := pushUndo (.addA (EntryId.getId e)) b.undo_stack,
        max_id := max b.max_id (EntryId.getId e) }) := by
    simp [bookAdd, hne]
  rw [hb]
  refine ⟨rfl, rfl, dGet?_dInsert_self _ _ _, rfl, rfl, ?_⟩
  rw [pushUndo_take]
  show dErase (dInsert b.data (EntryId.getId e) e) (EntryId.getId e) = _
  exact dErase_dInsert b.data (EntryId.getId e) e

/-- The note previously stored under id two. -/
def noteOld : Note :=
  { id := 2, text := chars "old", tags := [], contact_ids := [],
    created_at := sampleTime }

/-- A different note also carrying id two. -/
def noteNew : Note :=
  { id := 2, text := chars "new", tags := [], contact_ids := [],
    created_at := sampleTime }

/-- A notebook already holding the old note under id two. -/
def noteBookOld : Book Note :=
  { data := [(2, noteOld)], undo_stack := [], max_id := 2 }

/-- C10 witness: adding the new note over id two and undoing leaves the
mapping with id two erased, the old note unrecoverable. -/
theorem c10_witness :
    (bookUndo (bookAdd noteBookOld noteNew).2).2.data =
      dErase noteBookOld.data (EntryId.getId noteNew) :=
  (c10_add_overwrite noteBookOld noteNew (by decide)).2.2.2.2.2
